import Mathlib

set_option maxHeartbeats 1000000

/-!
Verification of `release_tools/semverup.py`.

This file shallowly embeds the pure logic of the `semverup` script: the
semantic-version data model of the `semver` package (`parse_version_info`,
`str`, `bump_patch`, `bump_minor` and version precedence), the regular
expression search for the `__version__` assignment used by
`read_version_number`, the bump decision loop of
`determine_new_version_number`, the file template of
`write_version_number`, and the top-level `semverup` pipeline.  File
contents are modelled as strings and the file system as an optional
content value; errors are modelled as `Except String` carrying the same
messages the script raises.
-/

/-- ASCII whitespace: the characters matched by the pattern class used
between `__version__`, `=` and the opening quote in the assignment regex.
(Python additionally accepts some rare Unicode whitespace, which never
occurs in version files and is not modelled.) -/
def isSpace (c : Char) : Bool :=
  c = ' ' || c = '\t' || c = '\n' || c = '\r' || c.toNat = 11 || c.toNat = 12

/-- The single-quote character. -/
def squoteChar : Char := Char.ofNat 39

/-- The single-quote character as a string (used in the script's
invalid-version error message). -/
def squote : String := String.mk [squoteChar]

/-- A single or double quote: the character class that delimits the version
string in the assignment regex. -/
def isQuote (c : Char) : Bool :=
  c = squoteChar || c = '"'

/-- The characters allowed in a prerelease or build identifier of a
semantic version: ASCII letters, digits and the hyphen. -/
def identChar (c : Char) : Bool :=
  c.isDigit || c.isUpper || c.isLower || c = '-'

/-- Decimal value of a digit string, as Python's `int` computes it. -/
def digitsToNat (l : List Char) : Nat :=
  l.foldl (fun n c => n * 10 + (c.toNat - 48)) 0

/-- Split a character list at every occurrence of `sep` (so `splitOnChar`
of an empty list is `[[]]`), mirroring how the semver parser splits
dot-separated identifier lists. -/
def splitOnChar (sep : Char) : List Char → List (List Char)
  | [] => [[]]
  | c :: rest =>
    if c = sep then [] :: splitOnChar sep rest
    else
      match splitOnChar sep rest with
      | [] => [[c]]
      | piece :: pieces => (c :: piece) :: pieces

/-- Split a character list at the first occurrence of `sep`, returning
`none` when `sep` does not occur. -/
def breakAtFirst (sep : Char) : List Char → Option (List Char × List Char)
  | [] => none
  | c :: rest =>
    if c = sep then some ([], rest)
    else
      match breakAtFirst sep rest with
      | none => none
      | some (a, b) => some (c :: a, b)

/-- A numeric component of a semantic version: a non-empty digit string
with no leading zero (the regex alternative matching the main version
numbers and numeric prerelease identifiers). -/
def validNumStr (l : List Char) : Bool :=
  !l.isEmpty && l.all Char.isDigit && (decide (l = ['0']) || decide (l.head? ≠ some '0'))

/-- A valid prerelease identifier: non-empty, over the identifier
alphabet, and with no leading zero when purely numeric. -/
def validPreIdent (l : List Char) : Bool :=
  !l.isEmpty && l.all identChar && (!l.all Char.isDigit || validNumStr l)

/-- A valid build identifier: non-empty over the identifier alphabet. -/
def validBuildIdent (l : List Char) : Bool :=
  !l.isEmpty && l.all identChar

/-- The semver `VersionInfo` record: major, minor and patch numbers plus
optional prerelease and build metadata strings. -/
structure VersionInfo where
  major : Nat
  minor : Nat
  patch : Nat
  prerelease : Option String
  build : Option String
deriving DecidableEq

/-- Embedding of `semver.parse_version_info`: parse `MAJOR.MINOR.PATCH[-PRE][+BUILD]`,
returning `none` exactly when the anchored semver regex rejects the
string.  The split at the first `+` and then the first `-` agrees with
the regex because the core and prerelease alphabets exclude `+` and the
core alphabet excludes `-`. -/
def parse_version_info (s : String) : Option VersionInfo :=
  let cs := s.data
  let broke1 := match breakAtFirst '+' cs with
    | none => (cs, (none : Option (List Char)))
    | some (a, b) => (a, some b)
  let broke2 := match breakAtFirst '-' broke1.1 with
    | none => (broke1.1, (none : Option (List Char)))
    | some (a, b) => (a, some b)
  match splitOnChar '.' broke2.1 with
  | [ma, mi, pa] =>
    if validNumStr ma && validNumStr mi && validNumStr pa
        && (match broke2.2 with
            | none => true
            | some p => (splitOnChar '.' p).all validPreIdent)
        && (match broke1.2 with
            | none => true
            | some b => (splitOnChar '.' b).all validBuildIdent) then
      some { major := digitsToNat ma, minor := digitsToNat mi, patch := digitsToNat pa,
             prerelease := broke2.2.map (fun p => String.mk p),
             build := broke1.2.map (fun b => String.mk b) }
    else
      none
  | _ => none

/-- One decimal digit as a character, as Python's `str` renders it. -/
def digitChar (d : Nat) : Char :=
  if d = 0 then '0' else if d = 1 then '1' else if d = 2 then '2' else if d = 3 then '3'
  else if d = 4 then '4' else if d = 5 then '5' else if d = 6 then '6'
  else if d = 7 then '7' else if d = 8 then '8' else '9'

/-- Fuel-indexed accumulator loop producing the decimal digits of `n`
(most significant first) in front of `acc`. -/
def natToCharsAux : Nat → Nat → List Char → List Char
  | 0, _, acc => acc
  | fuel + 1, n, acc =>
    if n = 0 then acc else natToCharsAux fuel (n / 10) (digitChar (n % 10) :: acc)

/-- Decimal rendering of a natural number, as Python's `str`. -/
def natToString (n : Nat) : String :=
  if n = 0 then "0" else String.mk (natToCharsAux n n [])

/-- String rendering of a semver `VersionInfo`:
`MAJOR.MINOR.PATCH[-PRE][+BUILD]`. -/
def versionToString (v : VersionInfo) : String :=
  natToString v.major ++ "." ++ natToString v.minor ++ "." ++ natToString v.patch
    ++ (match v.prerelease with | none => "" | some p => "-" ++ p)
    ++ (match v.build with | none => "" | some b => "+" ++ b)

/-- A `VersionInfo` whose prerelease and build parts are well formed, i.e.
one that `parse_version_info` can produce. -/
def validVersionInfo (v : VersionInfo) : Bool :=
  (match v.prerelease with
   | none => true
   | some p => (splitOnChar '.' p.data).all validPreIdent) &&
  (match v.build with
   | none => true
   | some b => (splitOnChar '.' b.data).all validBuildIdent)

/-- Embedding of `VersionInfo.bump_patch`: increment the patch number and clear the
prerelease and build metadata. -/
def VersionInfo.bump_patch (v : VersionInfo) : VersionInfo :=
  { major := v.major, minor := v.minor, patch := v.patch + 1,
    prerelease := none, build := none }

/-- Embedding of `VersionInfo.bump_minor`: increment the minor number, reset the patch
number to zero and clear the prerelease and build metadata. -/
def VersionInfo.bump_minor (v : VersionInfo) : VersionInfo :=
  { major := v.major, minor := v.minor + 1, patch := 0,
    prerelease := none, build := none }

/-- Lexicographic comparison of character lists by code point, used for
alphanumeric prerelease identifiers. -/
def charListCmp : List Char → List Char → Ordering
  | [], [] => Ordering.eq
  | [], _ :: _ => Ordering.lt
  | _ :: _, [] => Ordering.gt
  | a :: as, b :: bs =>
    if a.toNat < b.toNat then Ordering.lt
    else if b.toNat < a.toNat then Ordering.gt
    else charListCmp as bs

/-- Semver precedence of a single prerelease identifier: numeric
identifiers compare numerically and are lower than alphanumeric ones. -/
def preIdentCmp (a b : List Char) : Ordering :=
  if a.all Char.isDigit then
    if b.all Char.isDigit then
      if digitsToNat a < digitsToNat b then Ordering.lt
      else if digitsToNat b < digitsToNat a then Ordering.gt
      else Ordering.eq
    else Ordering.lt
  else if b.all Char.isDigit then Ordering.gt
  else charListCmp a b

/-- Semver precedence of dot-separated prerelease identifier lists:
identifier-wise, a shorter list preceding any extension of itself. -/
def preListCmp : List (List Char) → List (List Char) → Ordering
  | [], [] => Ordering.eq
  | [], _ :: _ => Ordering.lt
  | _ :: _, [] => Ordering.gt
  | a :: as, b :: bs =>
    match preIdentCmp a b with
    | Ordering.eq => preListCmp as bs
    | o => o

/-- Semver precedence: compare major, minor and patch numerically; a
version with a prerelease precedes the same version without one; build
metadata is ignored. -/
def versionCmp (v w : VersionInfo) : Ordering :=
  if v.major < w.major then Ordering.lt
  else if w.major < v.major then Ordering.gt
  else if v.minor < w.minor then Ordering.lt
  else if w.minor < v.minor then Ordering.gt
  else if v.patch < w.patch then Ordering.lt
  else if w.patch < v.patch then Ordering.gt
  else
    match v.prerelease, w.prerelease with
    | none, none => Ordering.eq
    | some _, none => Ordering.lt
    | none, some _ => Ordering.gt
    | some a, some b => preListCmp (splitOnChar '.' a.data) (splitOnChar '.' b.data)

/-- Strict semver order. -/
def semverLt (v w : VersionInfo) : Bool :=
  decide (versionCmp v w = Ordering.lt)

/-- The literal `__version__` matched at the start of the assignment
regex. -/
def versionVarChars : List Char :=
  ['_', '_', 'v', 'e', 'r', 's', 'i', 'o', 'n', '_', '_']

/-- Match a literal list of characters at the front of `s`, returning the
remainder on success. -/
def dropLit : List Char → List Char → Option (List Char)
  | [], s => some s
  | _ :: _, [] => none
  | p :: ps, c :: cs => if c = p then dropLit ps cs else none

/-- One attempt of the regex
`__version__\s*=\s*[quote]([^quotes]*)[quote]` at the current position:
the literal variable name, optional whitespace, `=`, optional whitespace,
an opening quote (single or double), a greedy run of non-quote characters
(the capture group) and a closing quote (single or double, not required
to match the opening one). -/
def matchVersionAssign (s : List Char) : Option String :=
  match dropLit versionVarChars s with
  | none => none
  | some r1 =>
    match r1.dropWhile isSpace with
    | [] => none
    | e1 :: r3 =>
      if e1 = '=' then
        match r3.dropWhile isSpace with
        | [] => none
        | q :: r5 =>
          if isQuote q then
            match r5.span (fun c => !isQuote c) with
            | (content, q2 :: _) =>
              if isQuote q2 then some (String.mk content) else none
            | (_, []) => none
          else none
      else none

/-- Embedding of `re.search` with the `MULTILINE` flag: scan positions left to right,
attempting the assignment pattern only at line starts (position zero or
just after a newline); `atStart` says whether the current position is a
line start. -/
def searchVersionAux : Bool → List Char → Option String
  | atStart, [] => if atStart then matchVersionAssign [] else none
  | atStart, c :: rest =>
    match (if atStart then matchVersionAssign (c :: rest) else none) with
    | some v => some v
    | none => searchVersionAux (decide (c = '\n')) rest

/-- Search a file's content for the first `__version__` assignment and
return its captured version string. -/
def searchVersion (content : String) : Option String :=
  searchVersionAux true content.data

/-- Error message of `read_version_number` when the file is missing. -/
def fileNotFoundMsg (filepath : String) : String :=
  "version file " ++ filepath ++ " does not exist"

/-- Error message of `read_version_number` when the extracted string is
not a valid semver string. -/
def invalidVersionMsg (found filepath : String) : String :=
  "version number " ++ squote ++ found ++ squote ++ " in " ++ filepath
    ++ " is not a valid semver string"

/-- Embedding of `read_version_number`: the file system is modelled by `file`, the
content of `filepath` when it exists.  Open the file (failing when it
does not exist), search for the first `__version__` assignment (failing
when there is none) and parse the captured string as a semantic version
(failing when it is invalid). -/
def read_version_number (filepath : String) (file : Option String) :
    Except String VersionInfo :=
  match file with
  | none => Except.error (fileNotFoundMsg filepath)
  | some content =>
    match searchVersion content with
    | none => Except.error "version number not found"
    | some found =>
      match parse_version_info found with
      | none => Except.error (invalidVersionMsg found filepath)
      | some v => Except.ok v

/-- Modelled from the spec: the category enumeration of changelog entries,
defined in the external `release_tools.entry` module (not under `src`).
The spec lists `FIXED`, `ADDED`, `CHANGED`, `DEPRECATED`, `REMOVED`,
`SECURITY`; only equality with `fixed` matters to the bump decision. -/
inductive CategoryChange where
  | fixed
  | added
  | changed
  | deprecated
  | removed
  | security
deriving DecidableEq

/-- The scan loop of `determine_new_version_number` over the entries'
categories (in mapping-iteration order), threading the `bump_patch` and
`bump_minor` flags: a non-`FIXED` entry sets `bump_minor` and breaks; a
`FIXED` entry sets `bump_patch` and continues. -/
def scanLoop : List CategoryChange → Bool → Bool → Bool × Bool
  | [], bp, bm => (bp, bm)
  | e :: rest, bp, bm =>
    if e ≠ CategoryChange.fixed then (bp, true)
    else scanLoop rest true bm

/-- Embedding of `determine_new_version_number`: run the scan loop with both flags
false, then pick the patch bump if `bump_patch` was set, overridden by
the minor bump if `bump_minor` was set; fail when neither was set.
`entries` lists the categories of the unreleased changelog entries in
iteration order. -/
def determine_new_version_number (current_version : VersionInfo)
    (entries : List CategoryChange) : Except String VersionInfo :=
  let flags := scanLoop entries false false
  let next1 : Option VersionInfo :=
    if flags.1 then some current_version.bump_patch else none
  let next2 : Option VersionInfo :=
    if flags.2 then some current_version.bump_minor else next1
  match next2 with
  | none => Except.error "no changes found; version number not updated"
  | some v => Except.ok v

/-- The reference bump decision described by the spec: compute whether any
entry is non-`FIXED` and whether any entry is `FIXED` without
short-circuiting, then decide exactly as `determine_new_version_number`
does. -/
def determine_ref (current_version : VersionInfo)
    (entries : List CategoryChange) : Except String VersionInfo :=
  let anyNonFixed := entries.any fun e => decide (e ≠ CategoryChange.fixed)
  let anyFixed := entries.any fun e => decide (e = CategoryChange.fixed)
  let next1 : Option VersionInfo :=
    if anyFixed then some current_version.bump_patch else none
  let next2 : Option VersionInfo :=
    if anyNonFixed then some current_version.bump_minor else next1
  match next2 with
  | none => Except.error "no changes found; version number not updated"
  | some v => Except.ok v

/-- Embedding of `VERSION_FILE_TEMPLATE`, instantiated with a timestamp and a version
string: a generation comment line followed by the double-quoted
`__version__` assignment, each newline-terminated. -/
def VERSION_FILE_TEMPLATE (timestamp version : String) : String :=
  "# File auto-generated by semverup on " ++ timestamp ++ "\n__version__ = \""
    ++ version ++ "\"\n"

/-- Embedding of `write_version_number`: open the file in write mode (discarding
`oldContent`, the file's previous content) and write the filled
template; returns the file's new content. -/
def write_version_number (timestamp : String) (version : VersionInfo)
    (_oldContent : String) : String :=
  VERSION_FILE_TEMPLATE timestamp (versionToString version)

/-- Outcome of a successful `semverup` run: the final content of the
version file and the version string printed to standard output. -/
structure RunResult where
  fileContent : String
  printed : String
deriving DecidableEq

/-- The `semverup` command pipeline, after the version file has been
located at `filepath` with content `fileContent` and the unreleased
changelog entries have been read as `entries`: read the current version,
determine the new one, write it unless `dry_run` is set, and print it. -/
def semverup (dry_run : Bool) (filepath fileContent : String)
    (entries : List CategoryChange) (timestamp : String) :
    Except String RunResult :=
  match read_version_number filepath (some fileContent) with
  | Except.error e => Except.error e
  | Except.ok current_version =>
    match determine_new_version_number current_version entries with
    | Except.error e => Except.error e
    | Except.ok new_version =>
      let finalContent :=
        if dry_run then fileContent
        else write_version_number timestamp new_version fileContent
      Except.ok { fileContent := finalContent,
                  printed := versionToString new_version }

theorem scanLoop_snd (l : List CategoryChange) (bp bm : Bool) :
    (scanLoop l bp bm).2 = (bm || l.any fun e => decide (e ≠ CategoryChange.fixed)) := by
  induction l generalizing bp bm with
  | nil => simp [scanLoop]
  | cons e rest ih =>
    by_cases he : e = CategoryChange.fixed
    · subst he
      simp [scanLoop, ih]
    · simp [scanLoop, he]

theorem scanLoop_fst_allFixed (l : List CategoryChange) (bp bm : Bool)
    (h : ∀ e ∈ l, e = CategoryChange.fixed) :
    (scanLoop l bp bm).1 = (bp || !l.isEmpty) := by
  induction l generalizing bp bm with
  | nil => simp [scanLoop]
  | cons e rest ih =>
    have he := h e (List.mem_cons_self e rest)
    subst he
    simp only [scanLoop, ne_eq, not_true_eq_false, if_false, List.isEmpty_cons,
      Bool.not_false, Bool.or_true]
    rw [ih true bm (fun x hx => h x (List.mem_cons_of_mem _ hx))]
    simp

theorem determine_eq_ref (cur : VersionInfo) (l : List CategoryChange) :
    determine_new_version_number cur l = determine_ref cur l := by
  by_cases hany : (l.any fun e => decide (e ≠ CategoryChange.fixed)) = true
  · have h2 : (scanLoop l false false).2 = true := by
      rw [scanLoop_snd, hany]; rfl
    have hex : ∃ x ∈ l, ¬x = CategoryChange.fixed := by simpa using hany
    simp [determine_new_version_number, determine_ref, h2, hex]
  · have hany' : (l.any fun e => decide (e ≠ CategoryChange.fixed)) = false := by
      simpa using hany
    have hall : ∀ e ∈ l, e = CategoryChange.fixed := by
      intro e he
      by_contra hne
      exact hany (List.any_eq_true.mpr ⟨e, he, by simp [hne]⟩)
    have h2 : (scanLoop l false false).2 = false := by
      rw [scanLoop_snd, hany']; rfl
    cases l with
    | nil => rfl
    | cons e rest =>
      have he : e = CategoryChange.fixed := hall e (List.mem_cons_self e rest)
      subst he
      have h1 : (scanLoop (CategoryChange.fixed :: rest) false false).1 = true := by
        rw [scanLoop_fst_allFixed _ _ _ hall]; rfl
      have hfix : ((CategoryChange.fixed :: rest).any
          fun x => decide (x = CategoryChange.fixed)) = true := by
        refine List.any_eq_true.mpr ⟨CategoryChange.fixed, List.mem_cons_self _ rest, ?_⟩
        simp
      have hnr : ¬∃ x ∈ rest, ¬x = CategoryChange.fixed := by
        rintro ⟨x, hx, hnx⟩
        exact hnx (hall x (List.mem_cons_of_mem _ hx))
      simp [determine_new_version_number, determine_ref, h1, h2, hany', hfix, hnr]

theorem perm_any {α : Type} (f : α → Bool) {l l' : List α} (h : l.Perm l') :
    l.any f = l'.any f := by
  cases hl : l.any f with
  | false =>
    cases hl' : l'.any f with
    | false => rfl
    | true =>
      obtain ⟨x, hx, hfx⟩ := List.any_eq_true.mp hl'
      have hcon : l.any f = true := List.any_eq_true.mpr ⟨x, h.mem_iff.mpr hx, hfx⟩
      rw [hl] at hcon
      exact hcon
  | true =>
    obtain ⟨x, hx, hfx⟩ := List.any_eq_true.mp hl
    exact (List.any_eq_true.mpr ⟨x, h.mem_iff.mp hx, hfx⟩).symm

/-- C1: for a non-empty entries mapping, `determine_new_version_number`
returns the minor bump of the current version as soon as some entry's
category is not `FIXED` (whether or not `FIXED` entries are also
present), and the patch bump when every entry is `FIXED`. -/
theorem determine_minor_or_patch (cur : VersionInfo) (entries : List CategoryChange)
    (h : entries ≠ []) :
    ((∃ e ∈ entries, e ≠ CategoryChange.fixed) →
        determine_new_version_number cur entries = Except.ok cur.bump_minor) ∧
    ((∀ e ∈ entries, e = CategoryChange.fixed) →
        determine_new_version_number cur entries = Except.ok cur.bump_patch) := by
  constructor
  · rintro ⟨e, he, hne⟩
    have h2 : (scanLoop entries false false).2 = true := by
      rw [scanLoop_snd]
      have hx : (entries.any fun x => decide (x ≠ CategoryChange.fixed)) = true :=
        List.any_eq_true.mpr ⟨e, he, decide_eq_true hne⟩
      rw [hx]
      rfl
    simp [determine_new_version_number, h2]
  · intro hall
    have h2 : (scanLoop entries false false).2 = false := by
      rw [scanLoop_snd]
      have hx : (entries.any fun x => decide (x ≠ CategoryChange.fixed)) = false := by
        have hnot : ¬(entries.any fun x => decide (x ≠ CategoryChange.fixed)) = true := by
          intro hcon
          obtain ⟨x, hx, hfx⟩ := List.any_eq_true.mp hcon
          exact (of_decide_eq_true hfx) (hall x hx)
        simpa using hnot
      rw [hx]
      rfl
    have h1 : (scanLoop entries false false).1 = true := by
      rw [scanLoop_fst_allFixed _ _ _ hall]
      simp [List.isEmpty_iff, h]
    simp [determine_new_version_number, h1, h2]

/-- Witness for **C1** at current version `1.2.3` and a single `FIXED`
entry: the result is the patch bump `1.2.4`. -/
theorem determine_minor_or_patch_witness :
    determine_new_version_number
        { major := 1, minor := 2, patch := 3, prerelease := none, build := none }
        [CategoryChange.fixed] =
      Except.ok { major := 1, minor := 2, patch := 4, prerelease := none, build := none } :=
  (determine_minor_or_patch
      { major := 1, minor := 2, patch := 3, prerelease := none, build := none }
      [CategoryChange.fixed] (by decide)).2 (by decide)

/-- C2: the short-circuiting scan of `determine_new_version_number`
computes the same result as the non-short-circuiting reference decision
built from `any(category != FIXED)` / `any(category == FIXED)`, and the
result is invariant under permuting the iteration order of the
entries. -/
theorem scan_decision_refines_any (cur : VersionInfo) (l l' : List CategoryChange)
    (h : l.Perm l') :
    determine_new_version_number cur l = determine_ref cur l ∧
    determine_new_version_number cur l = determine_new_version_number cur l' := by
  refine ⟨determine_eq_ref cur l, ?_⟩
  rw [determine_eq_ref cur l, determine_eq_ref cur l']
  unfold determine_ref
  rw [perm_any _ h, perm_any _ h]

/-- Witness for **C2** at entries `[FIXED, ADDED]` and the reordering
`[ADDED, FIXED]`. -/
theorem scan_decision_refines_any_witness :
    (determine_new_version_number
        { major := 1, minor := 2, patch := 3, prerelease := none, build := none }
        [CategoryChange.fixed, CategoryChange.added] =
      determine_ref
        { major := 1, minor := 2, patch := 3, prerelease := none, build := none }
        [CategoryChange.fixed, CategoryChange.added]) ∧
    (determine_new_version_number
        { major := 1, minor := 2, patch := 3, prerelease := none, build := none }
        [CategoryChange.fixed, CategoryChange.added] =
      determine_new_version_number
        { major := 1, minor := 2, patch := 3, prerelease := none, build := none }
        [CategoryChange.added, CategoryChange.fixed]) :=
  scan_decision_refines_any _ _ _ (by decide)

/-- C5: with an empty entries mapping, `determine_new_version_number`
fails with the exact message `no changes found; version number not
updated`, producing no version. -/
theorem empty_entries_no_changes (cur : VersionInfo) :
    determine_new_version_number cur [] =
      Except.error "no changes found; version number not updated" := rfl

/-- C6: `write_version_number` replaces the file's entire content with
exactly the two-line template (auto-generation comment with timestamp,
then the double-quoted `__version__` assignment), independently of the
file's previous content. -/
theorem write_version_number_template (ts : String) (v : VersionInfo)
    (old old' : String) :
    write_version_number ts v old =
      "# File auto-generated by semverup on " ++ ts ++ "\n"
        ++ "__version__ = \"" ++ versionToString v ++ "\"\n" ∧
    write_version_number ts v old = write_version_number ts v old' := by
  constructor
  · show VERSION_FILE_TEMPLATE ts (versionToString v) = _
    unfold VERSION_FILE_TEMPLATE
    have h : ("\n" : String) ++ "__version__ = \"" = "\n__version__ = \"" := rfl
    rw [← h]
    simp [String.append_assoc]
  · rfl

/-- C7: both bumps produce a version strictly greater than the
original under semver precedence, with lower-order numeric components
reset to zero and prerelease/build metadata cleared. -/
theorem bump_strictly_increases (v : VersionInfo) :
    semverLt v v.bump_patch = true ∧ semverLt v v.bump_minor = true ∧
    v.bump_patch.major = v.major ∧ v.bump_patch.minor = v.minor ∧
    v.bump_patch.patch = v.patch + 1 ∧
    v.bump_patch.prerelease = none ∧ v.bump_patch.build = none ∧
    v.bump_minor.major = v.major ∧ v.bump_minor.minor = v.minor + 1 ∧
    v.bump_minor.patch = 0 ∧
    v.bump_minor.prerelease = none ∧ v.bump_minor.build = none := by
  refine ⟨?_, ?_, rfl, rfl, rfl, rfl, rfl, rfl, rfl, rfl, rfl, rfl⟩
  · simp [semverLt, versionCmp, VersionInfo.bump_patch, Nat.lt_succ_self]
  · simp [semverLt, versionCmp, VersionInfo.bump_minor, Nat.lt_succ_self]

/-- C8: on a version file containing the single-quoted assignment, the
reader extracts `2.0.0` and returns the parsed version `2.0.0`. -/
theorem read_single_quoted_version :
    read_version_number "_version.py"
        (some ("__version__ = " ++ squote ++ "2.0.0" ++ squote)) =
      Except.ok { major := 2, minor := 0, patch := 0,
                  prerelease := none, build := none } := rfl

/-- C10: the assignment pattern does not require matching quote
delimiters: with an opening single quote and a closing double quote the
reader still extracts `1.2.3` and returns the parsed version. -/
theorem mismatched_quotes_accepted :
    read_version_number "_version.py"
        (some ("__version__ = " ++ squote ++ "1.2.3" ++ "\"")) =
      Except.ok { major := 1, minor := 2, patch := 3,
                  prerelease := none, build := none } := rfl

theorem fileNotFoundMsg_length (fp : String) :
    (fileNotFoundMsg fp).length = 28 + fp.length := by
  unfold fileNotFoundMsg
  rw [String.length_append, String.length_append]
  have h1 : ("version file " : String).length = 13 := by decide
  have h2 : (" does not exist" : String).length = 15 := by decide
  omega

theorem invalidVersionMsg_length (s fp : String) :
    (invalidVersionMsg s fp).length = 50 + s.length + fp.length := by
  unfold invalidVersionMsg
  simp only [String.length_append]
  have h1 : ("version number " : String).length = 15 := by decide
  have h2 : squote.length = 1 := by decide
  have h3 : (" in " : String).length = 4 := by decide
  have h4 : (" is not a valid semver string" : String).length = 29 := by decide
  omega

theorem fileNotFoundMsg_ne_vnf (fp : String) :
    fileNotFoundMsg fp ≠ "version number not found" := by
  intro h
  have hl := congrArg String.length h
  rw [fileNotFoundMsg_length] at hl
  have : ("version number not found" : String).length = 24 := by decide
  omega

theorem invalidVersionMsg_ne_fnf (s fp : String) :
    invalidVersionMsg s fp ≠ fileNotFoundMsg fp := by
  intro h
  have hl := congrArg String.length h
  rw [invalidVersionMsg_length, fileNotFoundMsg_length] at hl
  omega

theorem invalidVersionMsg_ne_vnf (s fp : String) :
    invalidVersionMsg s fp ≠ "version number not found" := by
  intro h
  have hl := congrArg String.length h
  rw [invalidVersionMsg_length] at hl
  have : ("version number not found" : String).length = 24 := by decide
  omega

/-- C3: `read_version_number` fails with the file-not-found message
exactly when the file does not exist; with the version-not-found message
exactly when the file exists but the assignment search finds no match;
with an invalid-version message exactly when a string is extracted but
does not parse as a semantic version; and otherwise returns the version
parsed from the first matching assignment. -/
theorem read_version_number_error_cases (fp : String) (file : Option String) :
    (read_version_number fp file = Except.error (fileNotFoundMsg fp) ↔ file = none) ∧
    (read_version_number fp file = Except.error "version number not found" ↔
       ∃ c, file = some c ∧ searchVersion c = none) ∧
    ((∃ s, read_version_number fp file = Except.error (invalidVersionMsg s fp)) ↔
       ∃ c s, file = some c ∧ searchVersion c = some s ∧ parse_version_info s = none) ∧
    (∀ c s v, file = some c → searchVersion c = some s → parse_version_info s = some v →
       read_version_number fp file = Except.ok v) := by
  rcases file with _ | c
  · refine ⟨by simp [read_version_number], ?_, ?_, ?_⟩
    · simp only [read_version_number]
      constructor
      · intro h
        exact absurd (Except.error.inj h) (fileNotFoundMsg_ne_vnf fp)
      · rintro ⟨c, hc, -⟩
        cases hc
    · simp only [read_version_number]
      constructor
      · rintro ⟨s, hs⟩
        exact absurd (Except.error.inj hs).symm (invalidVersionMsg_ne_fnf s fp)
      · rintro ⟨c, s, hc, -⟩
        cases hc
    · intro c s v hc
      cases hc
  · rcases hs : searchVersion c with _ | m
    · refine ⟨?_, ?_, ?_, ?_⟩
      · simp only [read_version_number, hs]
        constructor
        · intro h
          exact absurd (Except.error.inj h).symm (fileNotFoundMsg_ne_vnf fp)
        · intro h
          cases h
      · simp only [read_version_number, hs]
        constructor
        · intro _
          exact ⟨c, rfl, hs⟩
        · intro _
          trivial
      · simp only [read_version_number, hs]
        constructor
        · rintro ⟨s, hcon⟩
          exact absurd (Except.error.inj hcon).symm (invalidVersionMsg_ne_vnf s fp)
        · rintro ⟨c', s, hc, hsearch, -⟩
          cases hc
          rw [hs] at hsearch
          cases hsearch
      · intro c' s v hc hsearch
        cases hc
        rw [hs] at hsearch
        cases hsearch
    · rcases hp : parse_version_info m with _ | v
      · refine ⟨?_, ?_, ?_, ?_⟩
        · simp only [read_version_number, hs, hp]
          constructor
          · intro h
            exact absurd (Except.error.inj h) (invalidVersionMsg_ne_fnf m fp)
          · intro h
            cases h
        · simp only [read_version_number, hs, hp]
          constructor
          · intro h
            exact absurd (Except.error.inj h) (invalidVersionMsg_ne_vnf m fp)
          · rintro ⟨c', hc, hsearch⟩
            cases hc
            rw [hs] at hsearch
            cases hsearch
        · simp only [read_version_number, hs, hp]
          constructor
          · intro _
            exact ⟨c, m, rfl, hs, hp⟩
          · intro _
            exact ⟨m, rfl⟩
        · intro c' s v hc hsearch hparse
          cases hc
          rw [hs] at hsearch
          cases hsearch
          rw [hp] at hparse
          cases hparse
      · refine ⟨?_, ?_, ?_, ?_⟩
        · simp only [read_version_number, hs, hp]
          constructor
          · intro h
            cases h
          · intro h
            cases h
        · simp only [read_version_number, hs, hp]
          constructor
          · intro h
            cases h
          · rintro ⟨c', hc, hsearch⟩
            cases hc
            rw [hs] at hsearch
            cases hsearch
        · simp only [read_version_number, hs, hp]
          constructor
          · rintro ⟨s, hcon⟩
            cases hcon
          · rintro ⟨c', s, hc, hsearch, hparse⟩
            cases hc
            rw [hs] at hsearch
            cases hsearch
            rw [hp] at hparse
            cases hparse
        · intro c' s w hc hsearch hparse
          cases hc
          rw [hs] at hsearch
          cases hsearch
          rw [hp] at hparse
          cases hparse
          simp only [read_version_number, hs, hp]

/-- Witness for **C3** on an existing double-quoted version file: the
success branch returns the parsed version `1.2.3`. -/
theorem read_version_number_error_cases_witness :
    read_version_number "_version.py" (some "__version__ = \"1.2.3\"") =
      Except.ok { major := 1, minor := 2, patch := 3,
                  prerelease := none, build := none } :=
  (read_version_number_error_cases "_version.py"
      (some "__version__ = \"1.2.3\"")).2.2.2
    "__version__ = \"1.2.3\"" "1.2.3"
    { major := 1, minor := 2, patch := 3, prerelease := none, build := none }
    rfl rfl rfl

/-- C4: whenever the pipeline succeeds, the version file's final
content is byte-identical to its initial content exactly when `--dry-run`
is set (otherwise it is the written template), and the computed new
version string is printed either way: the write step is skipped exactly
when the flag is set. -/
theorem dry_run_frame (dry : Bool) (fp content : String)
    (entries : List CategoryChange) (ts : String) (res : RunResult)
    (h : semverup dry fp content entries ts = Except.ok res) :
    ∃ cur newv,
      read_version_number fp (some content) = Except.ok cur ∧
      determine_new_version_number cur entries = Except.ok newv ∧
      res.printed = versionToString newv ∧
      res.fileContent =
        (if dry then content else write_version_number ts newv content) := by
  unfold semverup at h
  rcases hr : read_version_number fp (some content) with e | cur
  · rw [hr] at h
    cases h
  · rw [hr] at h
    dsimp only at h
    rcases hd : determine_new_version_number cur entries with e | newv
    · rw [hd] at h
      cases h
    · rw [hd] at h
      dsimp only at h
      have heq := Except.ok.inj h
      refine ⟨cur, newv, rfl, hd, ?_, ?_⟩
      · rw [← heq]
      · rw [← heq]

/-- Witness for **C4**: a successful dry run on `1.2.3` with one `FIXED`
entry leaves the file content unchanged and prints `1.2.4`. -/
theorem dry_run_frame_witness :
    ∃ cur newv,
      read_version_number "_version.py" (some "__version__ = \"1.2.3\"") =
        Except.ok cur ∧
      determine_new_version_number cur [CategoryChange.fixed] = Except.ok newv ∧
      (RunResult.mk "__version__ = \"1.2.3\"" "1.2.4").printed =
        versionToString newv ∧
      (RunResult.mk "__version__ = \"1.2.3\"" "1.2.4").fileContent =
        (if true then "__version__ = \"1.2.3\""
         else write_version_number "2020-01-01 00:00:00" newv
                "__version__ = \"1.2.3\"") :=
  dry_run_frame true "_version.py" "__version__ = \"1.2.3\""
    [CategoryChange.fixed] "2020-01-01 00:00:00"
    (RunResult.mk "__version__ = \"1.2.3\"" "1.2.4") rfl

theorem digitChar_isDigit (d : Nat) : (digitChar d).isDigit = true := by
  unfold digitChar
  repeat' split
  all_goals decide

theorem digitChar_toNat (d : Nat) (h : d < 10) : (digitChar d).toNat - 48 = d := by
  interval_cases d <;> decide

theorem digitChar_ne_zero_char (d : Nat) (h : d ≠ 0) : digitChar d ≠ '0' := by
  unfold digitChar
  repeat' split
  all_goals first
  | (intro hcon; exact absurd (by assumption) h)
  | decide

theorem natToCharsAux_eq (fuel : Nat) :
    ∀ n acc, n ≤ fuel →
      natToCharsAux fuel n acc = ((Nat.digits 10 n).reverse.map digitChar) ++ acc := by
  induction fuel with
  | zero =>
    intro n acc hn
    interval_cases n
    simp [natToCharsAux]
  | succ fuel ih =>
    intro n acc hn
    by_cases h0 : n = 0
    · subst h0
      simp [natToCharsAux]
    · have hpos : 0 < n := Nat.pos_of_ne_zero h0
      have hdig : Nat.digits 10 n = n % 10 :: Nat.digits 10 (n / 10) :=
        Nat.digits_def' (by norm_num) hpos
      have hdiv : n / 10 ≤ fuel := by
        have := Nat.div_lt_self hpos (by norm_num : 1 < 10)
        omega
      rw [natToCharsAux, if_neg h0, ih (n / 10) _ hdiv, hdig]
      simp

theorem foldl_mul_add (l : List Nat) (a : Nat) :
    List.foldl (fun n d => n * 10 + d) a l.reverse =
      a * 10 ^ l.length + Nat.ofDigits 10 l := by
  induction l generalizing a with
  | nil => simp
  | cons d rest ih =>
    rw [List.reverse_cons, List.foldl_append, ih]
    simp only [List.foldl_cons, List.foldl_nil, Nat.ofDigits_cons, List.length_cons]
    ring

theorem digitsToNat_digits (n : Nat) :
    digitsToNat ((Nat.digits 10 n).reverse.map digitChar) = n := by
  unfold digitsToNat
  rw [List.foldl_map]
  have hext : List.foldl (fun x y => x * 10 + ((digitChar y).toNat - 48)) 0
        (Nat.digits 10 n).reverse =
      List.foldl (fun x y => x * 10 + y) 0 (Nat.digits 10 n).reverse := by
    refine List.foldl_ext _ _ 0 ?_
    intro a d hd
    rw [List.mem_reverse] at hd
    rw [digitChar_toNat d (Nat.digits_lt_base (by norm_num) hd)]
  rw [hext, foldl_mul_add]
  simp [Nat.ofDigits_digits]

theorem digitsToNat_natToString (n : Nat) :
    digitsToNat (natToString n).data = n := by
  by_cases h0 : n = 0
  · subst h0
    decide
  · unfold natToString
    rw [if_neg h0]
    show digitsToNat (natToCharsAux n n []) = n
    rw [natToCharsAux_eq n n [] (Nat.le_refl n), List.append_nil, digitsToNat_digits]

theorem natToString_all_digit (n : Nat) :
    ∀ c ∈ (natToString n).data, c.isDigit = true := by
  by_cases h0 : n = 0
  · subst h0
    decide
  · unfold natToString
    rw [if_neg h0]
    show ∀ c ∈ natToCharsAux n n [], c.isDigit = true
    rw [natToCharsAux_eq n n [] (Nat.le_refl n), List.append_nil]
    intro c hc
    obtain ⟨d, -, hd⟩ := List.mem_map.mp hc
    rw [← hd]
    exact digitChar_isDigit d

theorem validNumStr_natToString (n : Nat) :
    validNumStr (natToString n).data = true := by
  by_cases h0 : n = 0
  · subst h0
    decide
  · unfold natToString
    rw [if_neg h0]
    show validNumStr (natToCharsAux n n []) = true
    rw [natToCharsAux_eq n n [] (Nat.le_refl n), List.append_nil]
    have hne : Nat.digits 10 n ≠ [] := Nat.digits_ne_nil_iff_ne_zero.mpr h0
    unfold validNumStr
    refine (Bool.and_eq_true _ _).mpr ⟨(Bool.and_eq_true _ _).mpr ⟨?_, ?_⟩, ?_⟩
    · simp [List.isEmpty_iff, hne]
    · refine List.all_eq_true.mpr ?_
      intro c hc
      obtain ⟨d, -, hd⟩ := List.mem_map.mp hc
      rw [← hd]
      exact digitChar_isDigit d
    · refine Bool.or_eq_true_iff.mpr (Or.inr ?_)
      refine decide_eq_true ?_
      rw [List.head?_map, List.head?_reverse, List.getLast?_eq_getLast _ hne]
      have hlast := Nat.getLast_digit_ne_zero 10 h0
      have hne0 : digitChar ((Nat.digits 10 n).getLast hne) ≠ '0' :=
        digitChar_ne_zero_char _ hlast
      intro hcon
      exact hne0 (Option.some.inj hcon)

theorem isQuote_cases (c : Char) (h : isQuote c = true) :
    c = squoteChar ∨ c = '"' := by
  unfold isQuote at h
  rcases Bool.or_eq_true_iff.mp h with h1 | h1
  · exact Or.inl (of_decide_eq_true h1)
  · exact Or.inr (of_decide_eq_true h1)

theorem isDigit_props (c : Char) (h : c.isDigit = true) :
    c ≠ '.' ∧ c ≠ '-' ∧ c ≠ '+' ∧ c ≠ '\n' ∧ isQuote c = false := by
  refine ⟨?_, ?_, ?_, ?_, ?_⟩
  · intro e; subst e; exact absurd h (by decide)
  · intro e; subst e; exact absurd h (by decide)
  · intro e; subst e; exact absurd h (by decide)
  · intro e; subst e; exact absurd h (by decide)
  · cases hq : isQuote c with
    | false => rfl
    | true =>
      rcases isQuote_cases c hq with e | e <;> (subst e; exact absurd h (by decide))

theorem identChar_props (c : Char) (h : identChar c = true) :
    c ≠ '.' ∧ c ≠ '+' ∧ c ≠ '\n' ∧ isQuote c = false := by
  refine ⟨?_, ?_, ?_, ?_⟩
  · intro e; subst e; exact absurd h (by decide)
  · intro e; subst e; exact absurd h (by decide)
  · intro e; subst e; exact absurd h (by decide)
  · cases hq : isQuote c with
    | false => rfl
    | true =>
      rcases isQuote_cases c hq with e | e <;> (subst e; exact absurd h (by decide))

theorem splitOnChar_ne_nil (sep : Char) (l : List Char) :
    splitOnChar sep l ≠ [] := by
  cases l with
  | nil => simp [splitOnChar]
  | cons c rest =>
    unfold splitOnChar
    by_cases h : c = sep
    · simp [h]
    · rw [if_neg h]
      rcases hrec : splitOnChar sep rest with _ | ⟨piece, pieces⟩ <;> simp

theorem splitOnChar_no_sep (sep : Char) (l : List Char)
    (h : ∀ c ∈ l, c ≠ sep) : splitOnChar sep l = [l] := by
  induction l with
  | nil => rfl
  | cons c rest ih =>
    unfold splitOnChar
    rw [if_neg (h c (List.mem_cons_self c rest)),
      ih (fun x hx => h x (List.mem_cons_of_mem _ hx))]

theorem splitOnChar_append (sep : Char) (a r : List Char)
    (h : ∀ c ∈ a, c ≠ sep) :
    splitOnChar sep (a ++ sep :: r) = a :: splitOnChar sep r := by
  induction a with
  | nil => simp [splitOnChar]
  | cons c rest ih =>
    have hne := h c (List.mem_cons_self c rest)
    have ih' := ih (fun x hx => h x (List.mem_cons_of_mem _ hx))
    rcases hsr : splitOnChar sep r with _ | ⟨piece, pieces⟩
    · exact absurd hsr (splitOnChar_ne_nil sep r)
    · show splitOnChar sep (c :: (rest ++ sep :: r)) = (c :: rest) :: piece :: pieces
      simp only [splitOnChar]
      rw [if_neg hne, ih', hsr]

theorem mem_splitOnChar (sep : Char) (l : List Char) (c : Char) (hc : c ∈ l) :
    c = sep ∨ ∃ piece ∈ splitOnChar sep l, c ∈ piece := by
  induction l with
  | nil => cases hc
  | cons x rest ih =>
    by_cases hx : x = sep
    · subst hx
      rcases List.mem_cons.mp hc with rfl | hrest
      · exact Or.inl rfl
      · rcases ih hrest with h | ⟨piece, hp, hcp⟩
        · exact Or.inl h
        · refine Or.inr ⟨piece, ?_, hcp⟩
          unfold splitOnChar
          rw [if_pos rfl]
          exact List.mem_cons_of_mem _ hp
    · rcases hrec : splitOnChar sep rest with _ | ⟨piece, pieces⟩
      · exact absurd hrec (splitOnChar_ne_nil sep rest)
      · have hsplit : splitOnChar sep (x :: rest) = (x :: piece) :: pieces := by
          unfold splitOnChar
          rw [if_neg hx, hrec]
        rcases List.mem_cons.mp hc with heq | hrest
        · exact Or.inr ⟨x :: piece, by rw [hsplit]; exact List.mem_cons_self _ _,
            by rw [heq]; exact List.mem_cons_self _ _⟩
        · rcases ih hrest with h | ⟨piece', hp', hcp'⟩
          · exact Or.inl h
          · rw [hrec] at hp'
            rcases List.mem_cons.mp hp' with rfl | hp''
            · exact Or.inr ⟨x :: piece', by rw [hsplit]; exact List.mem_cons_self _ _,
                List.mem_cons_of_mem _ hcp'⟩
            · exact Or.inr ⟨piece', by rw [hsplit]; exact List.mem_cons_of_mem _ hp'',
                hcp'⟩

theorem breakAtFirst_none (sep : Char) (l : List Char)
    (h : ∀ c ∈ l, c ≠ sep) : breakAtFirst sep l = none := by
  induction l with
  | nil => rfl
  | cons c rest ih =>
    unfold breakAtFirst
    rw [if_neg (h c (List.mem_cons_self c rest)),
      ih (fun x hx => h x (List.mem_cons_of_mem _ hx))]

theorem breakAtFirst_append (sep : Char) (a b : List Char)
    (h : ∀ c ∈ a, c ≠ sep) :
    breakAtFirst sep (a ++ sep :: b) = some (a, b) := by
  induction a with
  | nil => simp [breakAtFirst]
  | cons c rest ih =>
    show breakAtFirst sep (c :: (rest ++ sep :: b)) = some (c :: rest, b)
    unfold breakAtFirst
    rw [if_neg (h c (List.mem_cons_self c rest)),
      ih (fun x hx => h x (List.mem_cons_of_mem _ hx))]

theorem core_chars (M m p : Nat) :
    ∀ c ∈ (natToString M).data
        ++ '.' :: ((natToString m).data ++ '.' :: (natToString p).data),
      c.isDigit = true ∨ c = '.' := by
  intro c hc
  simp only [List.mem_append, List.mem_cons] at hc
  rcases hc with h | h | h | h | h
  · exact Or.inl (natToString_all_digit M c h)
  · exact Or.inr h
  · exact Or.inl (natToString_all_digit m c h)
  · exact Or.inr h
  · exact Or.inl (natToString_all_digit p c h)

theorem core_no_plus (M m p : Nat) :
    ∀ c ∈ (natToString M).data
        ++ '.' :: ((natToString m).data ++ '.' :: (natToString p).data),
      c ≠ '+' := by
  intro c hc
  rcases core_chars M m p c hc with hd | hd
  · exact (isDigit_props c hd).2.2.1
  · rw [hd]; decide

theorem core_no_dash (M m p : Nat) :
    ∀ c ∈ (natToString M).data
        ++ '.' :: ((natToString m).data ++ '.' :: (natToString p).data),
      c ≠ '-' := by
  intro c hc
  rcases core_chars M m p c hc with hd | hd
  · exact (isDigit_props c hd).2.1
  · rw [hd]; decide

theorem core_split (M m p : Nat) :
    splitOnChar '.'
        ((natToString M).data
          ++ '.' :: ((natToString m).data ++ '.' :: (natToString p).data))
      = [(natToString M).data, (natToString m).data, (natToString p).data] := by
  rw [splitOnChar_append '.' _ _
      (fun c hc => (isDigit_props c (natToString_all_digit M c hc)).1),
    splitOnChar_append '.' _ _
      (fun c hc => (isDigit_props c (natToString_all_digit m c hc)).1),
    splitOnChar_no_sep '.' _
      (fun c hc => (isDigit_props c (natToString_all_digit p c hc)).1)]

theorem preChars (P : String)
    (h : (splitOnChar '.' P.data).all validPreIdent = true) :
    ∀ c ∈ P.data, identChar c = true ∨ c = '.' := by
  intro c hc
  rcases mem_splitOnChar '.' P.data c hc with h' | ⟨piece, hp, hcp⟩
  · exact Or.inr h'
  · have hv := List.all_eq_true.mp h piece hp
    unfold validPreIdent at hv
    rcases (Bool.and_eq_true _ _).mp hv with ⟨hv1, -⟩
    rcases (Bool.and_eq_true _ _).mp hv1 with ⟨-, hident⟩
    exact Or.inl (List.all_eq_true.mp hident c hcp)

theorem buildChars (B : String)
    (h : (splitOnChar '.' B.data).all validBuildIdent = true) :
    ∀ c ∈ B.data, identChar c = true ∨ c = '.' := by
  intro c hc
  rcases mem_splitOnChar '.' B.data c hc with h' | ⟨piece, hp, hcp⟩
  · exact Or.inr h'
  · have hv := List.all_eq_true.mp h piece hp
    unfold validBuildIdent at hv
    rcases (Bool.and_eq_true _ _).mp hv with ⟨-, hident⟩
    exact Or.inl (List.all_eq_true.mp hident c hcp)

theorem identOrDot_ne_plus (c : Char) (h : identChar c = true ∨ c = '.') :
    c ≠ '+' := by
  rcases h with h | h
  · exact (identChar_props c h).2.1
  · rw [h]; decide

/-- Printing a well-formed version and parsing the result returns the same
version: the semver `str`/`parse_version_info` round trip. -/
theorem parse_versionToString (v : VersionInfo) (hv : validVersionInfo v = true) :
    parse_version_info (versionToString v) = some v := by
  rcases v with ⟨M, m, p, pre, bld⟩
  rcases pre with _ | P <;> rcases bld with _ | B
  · have hdata : (versionToString
        { major := M, minor := m, patch := p, prerelease := none, build := none }).data
        = (natToString M).data
          ++ '.' :: ((natToString m).data ++ '.' :: (natToString p).data) := by
      simp [versionToString, String.data_append]
    have hplus := breakAtFirst_none '+' _ (core_no_plus M m p)
    have hdash := breakAtFirst_none '-' _ (core_no_dash M m p)
    simp only [parse_version_info, hdata, hplus, hdash, core_split,
      validNumStr_natToString, digitsToNat_natToString]
    simp
  · simp only [validVersionInfo] at hv
    rcases (Bool.and_eq_true _ _).mp hv with ⟨-, hvb⟩
    have hdata : (versionToString
        { major := M, minor := m, patch := p, prerelease := none, build := some B }).data
        = ((natToString M).data
            ++ '.' :: ((natToString m).data ++ '.' :: (natToString p).data))
          ++ '+' :: B.data := by
      simp [versionToString, String.data_append]
    have hplus : breakAtFirst '+'
        (((natToString M).data
            ++ '.' :: ((natToString m).data ++ '.' :: (natToString p).data))
          ++ '+' :: B.data)
        = some ((natToString M).data
            ++ '.' :: ((natToString m).data ++ '.' :: (natToString p).data), B.data) :=
      breakAtFirst_append '+' _ _ (core_no_plus M m p)
    have hdash := breakAtFirst_none '-' _ (core_no_dash M m p)
    simp only [parse_version_info, hdata, hplus, hdash, core_split,
      validNumStr_natToString, digitsToNat_natToString, hvb]
    simp
  · simp only [validVersionInfo] at hv
    rcases (Bool.and_eq_true _ _).mp hv with ⟨hvp, -⟩
    have hdata : (versionToString
        { major := M, minor := m, patch := p, prerelease := some P, build := none }).data
        = ((natToString M).data
            ++ '.' :: ((natToString m).data ++ '.' :: (natToString p).data))
          ++ '-' :: P.data := by
      simp [versionToString, String.data_append]
    have hplus : breakAtFirst '+'
        (((natToString M).data
            ++ '.' :: ((natToString m).data ++ '.' :: (natToString p).data))
          ++ '-' :: P.data) = none := by
      refine breakAtFirst_none '+' _ ?_
      intro c hc
      rcases List.mem_append.mp hc with h | h
      · exact core_no_plus M m p c h
      · rcases List.mem_cons.mp h with h' | h'
        · rw [h']; decide
        · exact identOrDot_ne_plus c (preChars P hvp c h')
    have hdash : breakAtFirst '-'
        (((natToString M).data
            ++ '.' :: ((natToString m).data ++ '.' :: (natToString p).data))
          ++ '-' :: P.data)
        = some ((natToString M).data
            ++ '.' :: ((natToString m).data ++ '.' :: (natToString p).data), P.data) :=
      breakAtFirst_append '-' _ _ (core_no_dash M m p)
    simp only [parse_version_info, hdata, hplus, hdash, core_split,
      validNumStr_natToString, digitsToNat_natToString, hvp]
    simp
  · simp only [validVersionInfo] at hv
    rcases (Bool.and_eq_true _ _).mp hv with ⟨hvp, hvb⟩
    have hdata : (versionToString
        { major := M, minor := m, patch := p, prerelease := some P, build := some B }).data
        = ((((natToString M).data
            ++ '.' :: ((natToString m).data ++ '.' :: (natToString p).data))
          ++ '-' :: P.data)) ++ '+' :: B.data := by
      simp [versionToString, String.data_append]
    have hplus : breakAtFirst '+'
        (((((natToString M).data
            ++ '.' :: ((natToString m).data ++ '.' :: (natToString p).data))
          ++ '-' :: P.data)) ++ '+' :: B.data)
        = some (((natToString M).data
            ++ '.' :: ((natToString m).data ++ '.' :: (natToString p).data))
          ++ '-' :: P.data, B.data) := by
      refine breakAtFirst_append '+' _ _ ?_
      intro c hc
      rcases List.mem_append.mp hc with h | h
      · exact core_no_plus M m p c h
      · rcases List.mem_cons.mp h with h' | h'
        · rw [h']; decide
        · exact identOrDot_ne_plus c (preChars P hvp c h')
    have hdash : breakAtFirst '-'
        (((natToString M).data
            ++ '.' :: ((natToString m).data ++ '.' :: (natToString p).data))
          ++ '-' :: P.data)
        = some ((natToString M).data
            ++ '.' :: ((natToString m).data ++ '.' :: (natToString p).data), P.data) :=
      breakAtFirst_append '-' _ _ (core_no_dash M m p)
    simp only [parse_version_info, hdata, hplus, hdash, core_split,
      validNumStr_natToString, digitsToNat_natToString, hvp, hvb]
    simp

theorem dropLit_self (p : List Char) : ∀ s, dropLit p (p ++ s) = some s := by
  induction p with
  | nil => intro s; rfl
  | cons c rest ih =>
    intro s
    show dropLit (c :: rest) (c :: (rest ++ s)) = some s
    unfold dropLit
    rw [if_pos rfl, ih s]

theorem matchVersionAssign_cons_ne (c : Char) (t : List Char) (h : c ≠ '_') :
    matchVersionAssign (c :: t) = none := by
  unfold matchVersionAssign versionVarChars dropLit
  rw [if_neg h]

theorem span_loop_all (p : Char → Bool) (a : List Char) :
    ∀ (b0 : Char) (b acc : List Char), (∀ c ∈ a, p c = true) → p b0 = false →
      List.span.loop p (a ++ b0 :: b) acc = (acc.reverse ++ a, b0 :: b) := by
  induction a with
  | nil =>
    intro b0 b acc _ hb
    show List.span.loop p (b0 :: b) acc = (acc.reverse ++ [], b0 :: b)
    unfold List.span.loop
    rw [hb, List.append_nil]
  | cons c rest ih =>
    intro b0 b acc h hb
    have hc := h c (List.mem_cons_self c rest)
    show List.span.loop p (c :: (rest ++ b0 :: b)) acc = (acc.reverse ++ c :: rest, b0 :: b)
    unfold List.span.loop
    rw [hc, ih b0 b (c :: acc) (fun x hx => h x (List.mem_cons_of_mem _ hx)) hb]
    simp

theorem span_all (p : Char → Bool) (a : List Char) (b0 : Char) (b : List Char)
    (h : ∀ c ∈ a, p c = true) (hb : p b0 = false) :
    (a ++ b0 :: b).span p = (a, b0 :: b) := by
  unfold List.span
  rw [span_loop_all p a b0 b [] h hb]
  rfl

theorem matchAssign_quoted (V tail : List Char)
    (hV : ∀ c ∈ V, isQuote c = false) :
    matchVersionAssign
        (versionVarChars ++ ' ' :: '=' :: ' ' :: '"' :: (V ++ '"' :: tail))
      = some (String.mk V) := by
  have hspan : (V ++ '"' :: tail).span (fun c => !isQuote c) = (V, '"' :: tail) := by
    refine span_all _ V '"' tail ?_ (by decide)
    intro c hc
    rw [hV c hc]
    rfl
  have hdw1 : (' ' :: '=' :: ' ' :: '"' :: (V ++ '"' :: tail)).dropWhile isSpace
      = '=' :: ' ' :: '"' :: (V ++ '"' :: tail) := by
    rw [List.dropWhile_cons_of_pos (by decide), List.dropWhile_cons_of_neg (by decide)]
  have hdw2 : (' ' :: '"' :: (V ++ '"' :: tail)).dropWhile isSpace
      = '"' :: (V ++ '"' :: tail) := by
    rw [List.dropWhile_cons_of_pos (by decide), List.dropWhile_cons_of_neg (by decide)]
  unfold matchVersionAssign
  rw [dropLit_self]
  dsimp only
  rw [hdw1]
  dsimp only
  rw [if_pos rfl, hdw2]
  dsimp only
  rw [if_pos (by decide : isQuote '"' = true), hspan]
  dsimp only
  rw [if_pos (by decide : isQuote '"' = true)]

theorem searchAux_found (s : List Char) (r : String)
    (h : matchVersionAssign s = some r) :
    searchVersionAux true s = some r := by
  cases s with
  | nil =>
    have hnone : matchVersionAssign ([] : List Char) = none := rfl
    rw [hnone] at h
    cases h
  | cons c t =>
    simp [searchVersionAux, h]

theorem searchAux_skip (l : List Char) :
    ∀ (b : Bool) (rest : List Char), (∀ c ∈ l, c ≠ '\n') →
      (b = true → matchVersionAssign (l ++ '\n' :: rest) = none) →
      searchVersionAux b (l ++ '\n' :: rest) = searchVersionAux true rest := by
  induction l with
  | nil =>
    intro b rest _ _
    have hnone : matchVersionAssign ('\n' :: rest) = none :=
      matchVersionAssign_cons_ne '\n' rest (by decide)
    show searchVersionAux b ('\n' :: rest) = searchVersionAux true rest
    cases b with
    | false => simp [searchVersionAux]
    | true => simp [searchVersionAux, hnone]
  | cons c l ih =>
    intro b rest hl hm
    have hc := hl c (List.mem_cons_self c l)
    have hrec : searchVersionAux (decide (c = '\n')) (l ++ '\n' :: rest)
        = searchVersionAux true rest := by
      refine ih _ _ (fun x hx => hl x (List.mem_cons_of_mem _ hx)) ?_
      intro hdec
      exact absurd (of_decide_eq_true hdec) hc
    show searchVersionAux b (c :: (l ++ '\n' :: rest)) = searchVersionAux true rest
    cases b with
    | false => simp [searchVersionAux, hrec]
    | true =>
      have hnone : matchVersionAssign (c :: (l ++ '\n' :: rest)) = none := hm rfl
      simp [searchVersionAux, hnone, hrec]

theorem core_no_quote (M m p : Nat) :
    ∀ c ∈ (natToString M).data
        ++ '.' :: ((natToString m).data ++ '.' :: (natToString p).data),
      isQuote c = false := by
  intro c hc
  rcases core_chars M m p c hc with h | h
  · exact (isDigit_props c h).2.2.2.2
  · rw [h]; decide

theorem versionToString_no_quote (v : VersionInfo) (hv : validVersionInfo v = true) :
    ∀ c ∈ (versionToString v).data, isQuote c = false := by
  rcases v with ⟨M, m, p, pre, bld⟩
  rcases pre with _ | P <;> rcases bld with _ | B
  · have hdata : (versionToString
        { major := M, minor := m, patch := p, prerelease := none, build := none }).data
        = (natToString M).data
          ++ '.' :: ((natToString m).data ++ '.' :: (natToString p).data) := by
      simp [versionToString, String.data_append]
    rw [hdata]
    exact core_no_quote M m p
  · simp only [validVersionInfo] at hv
    rcases (Bool.and_eq_true _ _).mp hv with ⟨-, hvb⟩
    have hdata : (versionToString
        { major := M, minor := m, patch := p, prerelease := none, build := some B }).data
        = ((natToString M).data
            ++ '.' :: ((natToString m).data ++ '.' :: (natToString p).data))
          ++ '+' :: B.data := by
      simp [versionToString, String.data_append]
    rw [hdata]
    intro c hc
    rcases List.mem_append.mp hc with h | h
    · exact core_no_quote M m p c h
    · rcases List.mem_cons.mp h with h' | h'
      · rw [h']; decide
      · rcases buildChars B hvb c h' with hi | hi
        · exact (identChar_props c hi).2.2.2
        · rw [hi]; decide
  · simp only [validVersionInfo] at hv
    rcases (Bool.and_eq_true _ _).mp hv with ⟨hvp, -⟩
    have hdata : (versionToString
        { major := M, minor := m, patch := p, prerelease := some P, build := none }).data
        = ((natToString M).data
            ++ '.' :: ((natToString m).data ++ '.' :: (natToString p).data))
          ++ '-' :: P.data := by
      simp [versionToString, String.data_append]
    rw [hdata]
    intro c hc
    rcases List.mem_append.mp hc with h | h
    · exact core_no_quote M m p c h
    · rcases List.mem_cons.mp h with h' | h'
      · rw [h']; decide
      · rcases preChars P hvp c h' with hi | hi
        · exact (identChar_props c hi).2.2.2
        · rw [hi]; decide
  · simp only [validVersionInfo] at hv
    rcases (Bool.and_eq_true _ _).mp hv with ⟨hvp, hvb⟩
    have hdata : (versionToString
        { major := M, minor := m, patch := p, prerelease := some P, build := some B }).data
        = (((natToString M).data
            ++ '.' :: ((natToString m).data ++ '.' :: (natToString p).data))
          ++ '-' :: P.data) ++ '+' :: B.data := by
      simp [versionToString, String.data_append]
    rw [hdata]
    intro c hc
    rcases List.mem_append.mp hc with h | h
    · rcases List.mem_append.mp h with h2 | h2
      · exact core_no_quote M m p c h2
      · rcases List.mem_cons.mp h2 with h' | h'
        · rw [h']; decide
        · rcases preChars P hvp c h' with hi | hi
          · exact (identChar_props c hi).2.2.2
          · rw [hi]; decide
    · rcases List.mem_cons.mp h with h' | h'
      · rw [h']; decide
      · rcases buildChars B hvb c h' with hi | hi
        · exact (identChar_props c hi).2.2.2
        · rw [hi]; decide

/-- C9: writing a version file with `write_version_number` and reading
it back with `read_version_number` succeeds and returns the version that
was written, for every well-formed version and every timestamp free of
newlines. -/
theorem write_read_roundtrip (fp ts : String) (v : VersionInfo) (old : String)
    (hts : ∀ c ∈ ts.data, c ≠ '\n') (hv : validVersionInfo v = true) :
    read_version_number fp (some (write_version_number ts v old)) = Except.ok v := by
  have hVq := versionToString_no_quote v hv
  have hdata : (write_version_number ts v old).data
      = ("# File auto-generated by semverup on ".data ++ ts.data)
        ++ '\n' :: (versionVarChars ++ ' ' :: '=' :: ' ' :: '"' ::
            ((versionToString v).data ++ '"' :: '\n' :: [])) := by
    show (VERSION_FILE_TEMPLATE ts (versionToString v)).data = _
    have h1 : ("\n__version__ = \"" : String).data
        = '\n' :: (versionVarChars ++ [' ', '=', ' ', '"']) := rfl
    have h2 : ("\"\n" : String).data = ['"', '\n'] := rfl
    simp [VERSION_FILE_TEMPLATE, String.data_append, h1, h2, versionVarChars]
  have hl : ∀ c ∈ "# File auto-generated by semverup on ".data ++ ts.data,
      c ≠ '\n' := by
    intro c hc
    rcases List.mem_append.mp hc with h | h
    · have hlit : ∀ x ∈ "# File auto-generated by semverup on ".data, x ≠ '\n' := by
        decide
      exact hlit c h
    · exact hts c h
  have hm : matchVersionAssign
      (("# File auto-generated by semverup on ".data ++ ts.data)
        ++ '\n' :: (versionVarChars ++ ' ' :: '=' :: ' ' :: '"' ::
            ((versionToString v).data ++ '"' :: '\n' :: []))) = none := by
    have hshape : ("# File auto-generated by semverup on ".data ++ ts.data)
        ++ '\n' :: (versionVarChars ++ ' ' :: '=' :: ' ' :: '"' ::
            ((versionToString v).data ++ '"' :: '\n' :: []))
        = '#' :: ((" File auto-generated by semverup on ".data ++ ts.data)
            ++ '\n' :: (versionVarChars ++ ' ' :: '=' :: ' ' :: '"' ::
              ((versionToString v).data ++ '"' :: '\n' :: []))) := rfl
    rw [hshape]
    exact matchVersionAssign_cons_ne '#' _ (by decide)
  have hsearch : searchVersionAux true (write_version_number ts v old).data
      = some (versionToString v) := by
    rw [hdata]
    rw [searchAux_skip _ true _ hl (fun _ => hm)]
    exact searchAux_found _ _
      (matchAssign_quoted (versionToString v).data ('\n' :: []) hVq)
  simp only [read_version_number, searchVersion, hsearch,
    parse_versionToString v hv]

/-- Witness for **C9** at version `1.2.3` and a concrete timestamp. -/
theorem write_read_roundtrip_witness :
    read_version_number "_version.py"
        (some (write_version_number "2020-01-01 00:00:00"
          { major := 1, minor := 2, patch := 3, prerelease := none, build := none }
          "old content")) =
      Except.ok { major := 1, minor := 2, patch := 3,
                  prerelease := none, build := none } :=
  write_read_roundtrip "_version.py" "2020-01-01 00:00:00"
    { major := 1, minor := 2, patch := 3, prerelease := none, build := none }
    "old content" (by decide) (by decide)
